import Mathlib

/-!
# Verification of the docker-manifest registry client

Shallow embedding of the Go package `pkg/registry` (files `registry.go`,
`auth.go`, `client.go`, `manifest_group.go`) and proofs about the claims of
the natural-language specification.

Conventions:
* Go strings are modelled as Lean `String`; byte-level operations of the
  Go standard library (`strings.Contains`, `strings.SplitN`, ...) are
  re-implemented over `String.toList`, which coincides with the Go
  behaviour on all inputs used here (ASCII separators).
* Go maps used only through insert/lookup/delete/iterate are modelled as
  association lists in first-insertion order (one admissible iteration
  order of the Go map).
* Network I/O is modelled by oracle parameters: a deterministic function
  from the request data to the response, matching the "mocked,
  deterministic network" reading of the specification.
* Fallible Go functions returning `(T, error)` become `Except GoErr T`.
-/

/-- Error values of the package (Go `fmt.Errorf` results), one constructor
per distinct error site relevant to the claims. -/
inductive GoErr where
  /-- "registry key 不能为空" — empty key on registration. -/
  | emptyKey : GoErr
  /-- "registry key '%s' 已被内置 registry 使用" — reserved built-in key. -/
  | reservedKey (key : String) : GoErr
  /-- "registry key '%s' 已被注册" — duplicate registration. -/
  | alreadyRegistered (key : String) : GoErr
  /-- "registry key '%s' 未注册" — unregistering an unknown key. -/
  | notRegistered (key : String) : GoErr
  /-- "不能删除内置 registry '%s'" — unregistering a built-in. -/
  | reservedDelete (key : String) : GoErr
  /-- "生成的 URL 太长 (%d 字符 > %d)" — auth URL over the 2048 budget. -/
  | requestTooLarge (length : Nat) : GoErr
  /-- "认证失败 (状态码: %d): %s" — non-200 from the token endpoint. -/
  | authFailed (statusCode : Nat) (body : String) : GoErr
  /-- "解析认证响应失败" — token response body is not valid JSON. -/
  | decodeFailed : GoErr
  /-- "认证响应中没有找到 token" — 200 response with no usable token. -/
  | noTokenInResponse : GoErr
  /-- "不支持的认证类型" — `WWW-Authenticate` without `Bearer ` prefix. -/
  | unsupportedAuthType : GoErr
  /-- "未找到 realm 参数" — `WWW-Authenticate` without a realm. -/
  | realmNotFound : GoErr
  /-- "未找到 registry 配置: %s" — lookup of an unknown registry key. -/
  | registryNotFound (key : String) : GoErr
deriving DecidableEq, Repr

/-- `RegistryConfig` (registry.go): configuration of one registry. -/
structure RegistryConfig where
  Key : String
  Name : String
  RegistryURL : String
  AuthURL : String
  Service : String
deriving DecidableEq, Repr

/-- Constant `DockerHubKey` (registry.go). -/
def DockerHubKey : String := "dockerhub"

/-- Constant `GHCRKey` (registry.go). -/
def GHCRKey : String := "ghcr"

/-- The registry directory: Go's `map[string]*RegistryConfig` modelled as an
association list in insertion order. -/
abbrev RegistryDir := List (String × RegistryConfig)

/-- The initial value of the global `registries` map (registry.go, lines
24-43): the two built-in entries. -/
def builtinRegistries : RegistryDir :=
  [ (DockerHubKey,
     { Key := DockerHubKey
       Name := "Docker Hub"
       RegistryURL := "https://registry-1.docker.io"
       AuthURL := "https://auth.docker.io"
       Service := "registry.docker.io" }),
    (GHCRKey,
     { Key := GHCRKey
       Name := "GitHub Container Registry"
       RegistryURL := "https://ghcr.io"
       AuthURL := "https://ghcr.io"
       Service := "ghcr.io" }) ]

/-! ## Go `strings` helpers -/

/-- Whether `sub` occurs as a contiguous run inside `l` (at any suffix). -/
def listContains (l sub : List Char) : Bool :=
  match l with
  | [] => sub.isEmpty
  | c :: xs => sub.isPrefixOf (c :: xs) || listContains xs sub

/-- Go `strings.Contains(s, substr)`. -/
def goContains (s substr : String) : Bool :=
  listContains s.toList substr.toList

/-- Go `strings.HasPrefix(s, prefix)`. -/
def goHasPrefix (s pre : String) : Bool :=
  pre.toList.isPrefixOf s.toList

/-- Go `strings.TrimPrefix(s, prefix)`. -/
def goTrimPrefix (s pre : String) : String :=
  if goHasPrefix s pre then ⟨s.toList.drop pre.toList.length⟩ else s

/-- Go `strings.Split` on a one-character separator, over characters:
maximal runs between separator occurrences (`Split("", sep) = [""]`). -/
def splitCharL (sep : Char) : List Char → List (List Char)
  | [] => [[]]
  | c :: cs =>
    if c = sep then [] :: splitCharL sep cs
    else match splitCharL sep cs with
      | [] => [[c]]
      | p :: ps => (c :: p) :: ps

/-- Split a character list at the first occurrence of `sep`:
`some (before, after)`, or `none` when `sep` does not occur. -/
def breakAtChar (sep : Char) : List Char → Option (List Char × List Char)
  | [] => none
  | c :: cs =>
    if c = sep then some ([], cs)
    else match breakAtChar sep cs with
      | none => none
      | some (a, b) => some (c :: a, b)

/-- Go `strings.SplitN(s, sep, 2)` on a one-character separator: split
around the first occurrence only. -/
def splitN2L (sep : Char) (l : List Char) : List (List Char) :=
  match breakAtChar sep l with
  | none => [l]
  | some (a, b) => [a, b]

/-- Go `strings.SplitN(s, sep, 2)` for a one-character separator string. -/
def goSplitN2 (s : String) (sep : Char) : List String :=
  (splitN2L sep s.toList).map (⟨·⟩)

/-! ## Image Name Resolver (registry.go) -/

/-- `DetectRegistry` (registry.go, lines 47-73), parametrised by the current
directory contents `regs` (the global `registries` map; the association
list fixes one iteration order of the Go map). -/
def DetectRegistry (regs : RegistryDir) (image : String) : String :=
  if goHasPrefix image "ghcr.io/" then GHCRKey
  else
    match regs.find? (fun p =>
        goContains image "/" &&
        (let domain := ((goSplitN2 image '/').headD "")
         goContains domain "." && goContains p.2.RegistryURL domain)) with
    | some p => p.1
    | none => DockerHubKey

/-- `NormalizeImageName` (registry.go, lines 79-98). -/
def NormalizeImageName (image registryKey : String) : String :=
  if registryKey = DockerHubKey then
    if ¬ goContains image "/" then "library/" ++ image else image
  else if registryKey = GHCRKey then
    goTrimPrefix image "ghcr.io/"
  else
    match goSplitN2 image '/' with
    | [d, rest] => if goContains d "." then rest else image
    | _ => image

/-! ## Manifest-fetch authentication dispatch (client.go) -/

/-- Which token-acquisition flow `GetManifestWithDigest` selects. -/
inductive TokenFlow where
  /-- The `WWW-Authenticate` dynamic-discovery flow
  (`getAuthTokenViaWWWAuthenticate`), for a bare domain. -/
  | dynamicDiscovery (domain : String) : TokenFlow
  /-- The registered-registry flow (`getAuthToken` with a directory key). -/
  | registered (registryKey : String) : TokenFlow
deriving DecidableEq, Repr

/-- The flow-selection prefix of `GetManifestWithDigest` (client.go, lines
139-150): detect the registry key, then branch on whether the key starts
with `custom:` (`len(registryKey) > 7 && registryKey[:7] == "custom:"`). -/
def manifestAuthFlow (regs : RegistryDir) (image : String) : TokenFlow :=
  let registryKey := DetectRegistry regs image
  if registryKey.toList.length > 7 ∧ (registryKey.toList.take 7 = "custom:".toList) then
    .dynamicDiscovery ⟨registryKey.toList.drop 7⟩
  else
    .registered registryKey

/-! ## Batch size clamping (manifest_group.go, lines 35-41) -/

/-- The effective maximum batch size computed at the top of
`groupImagesByRegistry` (manifest_group.go, lines 35-41): default 30,
caller-supplied value taken as-is, then reset to 30 when out of `[1, 30]`. -/
def effectiveMaxBatchSize (size : Option Int) : Int :=
  let maxBatchSize : Int := match size with | none => 30 | some v => v
  if maxBatchSize > 30 ∨ maxBatchSize < 1 then 30 else maxBatchSize

/-! ## Batch Planner (manifest_group.go) -/

/-- `ImageSpec` (client.go): an image name plus a tag. -/
structure ImageSpec where
  Image : String
  Tag : String
deriving DecidableEq, Repr

/-- `groupToken` (manifest_group.go): the batch token of one sub-group. -/
structure groupToken where
  registryKey : String
  token : String
deriving DecidableEq, Repr

/-- The Go zero value of `groupToken` (a freshly created sub-group carries
no batch token). -/
def noToken : groupToken := ⟨"", ""⟩

/-- `subGroup` (manifest_group.go): the parallel slices `specs` and
`indices` are modelled as one list of pairs `(spec, original index)`. -/
structure subGroup where
  registryKey : String
  members : List (ImageSpec × Nat)
  token : groupToken
deriving DecidableEq, Repr

/-- `registryGroup` (manifest_group.go): a primary per-registry partition,
before size-bounded splitting. -/
structure registryGroup where
  registryKey : String
  members : List (ImageSpec × Nat)
deriving DecidableEq, Repr

/-- One step of the primary-grouping loop of `groupImagesByRegistry`
(manifest_group.go, lines 46-58): append `item` to the group keyed `key`,
creating the group when absent (Go map insertion, first-insertion order). -/
def insertSpec (groups : List registryGroup) (key : String) (item : ImageSpec × Nat) :
    List registryGroup :=
  match groups with
  | [] => [⟨key, [item]⟩]
  | g :: gs =>
    if g.registryKey = key then ⟨key, g.members ++ [item]⟩ :: gs
    else g :: insertSpec gs key item

/-- The primary per-registry partition built by the first loop of
`groupImagesByRegistry` (manifest_group.go, lines 43-58). -/
def primaryGroups (regs : RegistryDir) (imageSpecs : List ImageSpec) : List registryGroup :=
  imageSpecs.enum.foldl
    (fun gs p => insertSpec gs (DetectRegistry regs p.2.Image) (p.2, p.1)) []

/-- Consecutive chunks of size `n + 1` (the Go loop
`for i := 0; i < total; i += maxBatchSize` slicing `[i:end]`,
manifest_group.go, lines 75-86, with `maxBatchSize = n + 1`). -/
def chunkList (n : Nat) : List α → List (List α)
  | [] => []
  | x :: xs => (x :: xs.take n) :: chunkList n (xs.drop n)
termination_by l => l.length
decreasing_by simp only [List.length_drop, List.length_cons]; omega

/-- `groupImagesByRegistry` (manifest_group.go, lines 34-101): primary
partition by detected registry key, then size-bounded splitting.  The
clamping prologue (lines 35-41) is `effectiveMaxBatchSize`. -/
def groupImagesByRegistry (regs : RegistryDir) (imageSpecs : List ImageSpec)
    (size : Option Int) : List subGroup :=
  let maxBatchSize := (effectiveMaxBatchSize size).toNat
  (primaryGroups regs imageSpecs).flatMap (fun g =>
    if g.members.length > maxBatchSize then
      (chunkList (maxBatchSize - 1) g.members).map
        (fun c => { registryKey := g.registryKey, members := c, token := noToken })
    else
      [{ registryKey := g.registryKey, members := g.members, token := noToken }])

/-! ## Registry Directory CRUD (registry.go) -/

/-- `RegisterRegistry` (registry.go, lines 103-129), state-passing form:
the Go global map is the explicit argument and the updated map the
result.  On error the Go function returns before mutating the map. -/
def RegisterRegistry (regs : RegistryDir) (key : String) (config : RegistryConfig) :
    Except GoErr RegistryDir :=
  if key = "" then .error .emptyKey
  else if key = DockerHubKey ∨ key = GHCRKey then .error (.reservedKey key)
  else if (regs.lookup key).isSome then .error (.alreadyRegistered key)
  else
    let config := { config with
                    Key := key
                    Name := if config.Name = "" then key else config.Name }
    .ok (regs ++ [(key, config)])

/-- `GetRegistry` (registry.go, lines 132-137). -/
def GetRegistry (regs : RegistryDir) (key : String) : Option RegistryConfig :=
  regs.lookup key

/-- `UnregisterRegistry` (registry.go, lines 140-155), state-passing form. -/
def UnregisterRegistry (regs : RegistryDir) (key : String) : Except GoErr RegistryDir :=
  if key = DockerHubKey ∨ key = GHCRKey then .error (.reservedDelete key)
  else if (regs.lookup key).isNone then .error (.notRegistered key)
  else .ok (regs.filter (fun p => p.1 != key))

/-- A mutation of the registry directory, for stating lifecycle claims. -/
inductive DirOp where
  | register (key : String) (config : RegistryConfig) : DirOp
  | unregister (key : String) : DirOp
deriving DecidableEq, Repr

/-- Apply one directory mutation; a failed call leaves the Go map
untouched (the functions return before writing). -/
def stepOp (regs : RegistryDir) (op : DirOp) : RegistryDir :=
  match op with
  | .register k c => match RegisterRegistry regs k c with
    | .ok s => s
    | .error _ => regs
  | .unregister k => match UnregisterRegistry regs k with
    | .ok s => s
    | .error _ => regs

/-! ## Token Acquirer: auth URL construction (auth.go)

`net/url`'s `Values` is modelled as an association list from key to the
list of values added under that key; `Values.Encode` percent-encodes with
`url.QueryEscape` and emits keys in sorted order, each key's values in
insertion order — exactly Go's behaviour. -/

/-- The UTF-8 encoding of one character, as byte values (Go strings are
UTF-8 byte slices; `len` and `QueryEscape` work on bytes). -/
def utf8Bytes (c : Char) : List Nat :=
  let n := c.toNat
  if n < 0x80 then [n]
  else if n < 0x800 then
    [0xC0 ||| (n >>> 6), 0x80 ||| (n &&& 0x3F)]
  else if n < 0x10000 then
    [0xE0 ||| (n >>> 12), 0x80 ||| ((n >>> 6) &&& 0x3F), 0x80 ||| (n &&& 0x3F)]
  else
    [0xF0 ||| (n >>> 18), 0x80 ||| ((n >>> 12) &&& 0x3F),
     0x80 ||| ((n >>> 6) &&& 0x3F), 0x80 ||| (n &&& 0x3F)]

/-- Go `len(s)` on a string: its UTF-8 byte length. -/
def utf8Len (s : String) : Nat :=
  (s.toList.map (fun c => (utf8Bytes c).length)).sum

/-- Upper-case hexadecimal digit, for percent-encoding. -/
def hexDigit (n : Nat) : Char :=
  "0123456789ABCDEF".toList.getD n '0'

/-- Whether `url.QueryEscape` leaves the byte `b` unescaped: ASCII
alphanumerics and `-`, `_`, `.`, `~`. -/
def queryUnescapedByte (b : Nat) : Bool :=
  (0x41 ≤ b && b ≤ 0x5A) || (0x61 ≤ b && b ≤ 0x7A) || (0x30 ≤ b && b ≤ 0x39) ||
  b == 0x2D || b == 0x5F || b == 0x2E || b == 0x7E

/-- Go `url.QueryEscape`: percent-encode every byte except the unescaped
set, mapping space to `+`. -/
def queryEscape (s : String) : String :=
  ⟨(s.toList.flatMap utf8Bytes).flatMap (fun b =>
    if b == 0x20 then ['+']
    else if queryUnescapedByte b then [Char.ofNat b]
    else ['%', hexDigit (b / 16), hexDigit (b % 16)])⟩

/-- Go `url.Values`: key to list-of-values, keys unique. -/
abbrev URLValues := List (String × List String)

/-- `url.Values.Set`: replace the key's values with the singleton. -/
def valuesSet (v : URLValues) (key val : String) : URLValues :=
  if (v.lookup key).isSome then
    v.map (fun p => if p.1 = key then (p.1, [val]) else p)
  else v ++ [(key, [val])]

/-- `url.Values.Add`: append one value under the key. -/
def valuesAdd (v : URLValues) (key val : String) : URLValues :=
  if (v.lookup key).isSome then
    v.map (fun p => if p.1 = key then (p.1, p.2 ++ [val]) else p)
  else v ++ [(key, [val])]

/-- Lexicographic comparison of character lists by code point (Go's
byte-wise string `<`; identical on ASCII). -/
def charListLt : List Char → List Char → Bool
  | [], [] => false
  | [], _ :: _ => true
  | _ :: _, [] => false
  | a :: as, b :: bs =>
    if a.toNat < b.toNat then true
    else if b.toNat < a.toNat then false
    else charListLt as bs

/-- Go string `<` (lexicographic). -/
def stringLt (a b : String) : Bool := charListLt a.toList b.toList

/-- Insert a string into a sorted list (for `Values.Encode`'s key sort). -/
def insertSorted (s : String) : List String → List String
  | [] => [s]
  | x :: xs => if stringLt s x then s :: x :: xs else x :: insertSorted s xs

/-- Sort strings ascending (Go `sort.Strings` over the map keys). -/
def sortStrings (l : List String) : List String := l.foldr insertSorted []

/-- Go `strings.Join(parts, "&")`. -/
def joinAmp : List String → String
  | [] => ""
  | [x] => x
  | x :: rest => x ++ "&" ++ joinAmp rest

/-- `url.Values.Encode`: keys in sorted order, each key's values in
insertion order, `escape(k)=escape(v)` joined by `&`. -/
def valuesEncode (v : URLValues) : String :=
  joinAmp ((sortStrings (v.map Prod.fst)).flatMap (fun k =>
    match v.lookup k with
    | some vs => vs.map (fun val => queryEscape k ++ "=" ++ queryEscape val)
    | none => []))

/-- The URL composed by `BuildAuthURLWithScopes` (auth.go, lines 130-167)
before the length check: three branches switching on `config.Key`.  The
Docker Hub branch always sets `service`; the GHCR branch never does; the
default branch sets it only when `config.Service` is non-empty. -/
def composedAuthURL (config : RegistryConfig) (scopes : List String) : String :=
  if config.Key = DockerHubKey then
    let authURL := config.AuthURL ++ "/token"
    let params := scopes.foldl (fun ps s => valuesAdd ps "scope" s)
      (valuesSet [] "service" config.Service)
    authURL ++ "?" ++ valuesEncode params
  else if config.Key = GHCRKey then
    let authURL := config.AuthURL ++ "/token"
    let params := scopes.foldl (fun ps s => valuesAdd ps "scope" s) []
    authURL ++ "?" ++ valuesEncode params
  else
    let authURL := config.AuthURL ++ "/token"
    let params0 := if config.Service ≠ "" then valuesSet [] "service" config.Service else []
    let params := scopes.foldl (fun ps s => valuesAdd ps "scope" s) params0
    authURL ++ "?" ++ valuesEncode params

/-- `BuildAuthURLWithScopes` (auth.go, lines 130-177): compose the URL and
reject it when its byte length exceeds 2048. -/
def BuildAuthURLWithScopes (config : RegistryConfig) (scopes : List String) :
    Except GoErr String :=
  let finalURL := composedAuthURL config scopes
  if utf8Len finalURL > 2048 then .error (.requestTooLarge (utf8Len finalURL))
  else .ok finalURL

/-! ## Token Acquirer: token-endpoint response handling (auth.go) -/

/-- `tokenResponse` (auth.go, lines 16-20): the decoded JSON body. -/
structure tokenResponse where
  Token : String
  AccessToken : String
  ExpiresIn : Int
deriving DecidableEq, Repr

/-- The response-processing suffix of `GetAuthTokenWithScopes` (auth.go,
lines 102-126): the HTTP exchange already happened, `statusCode`/`body`
are the response, and `decoded` is the result of `json.Unmarshal` on the
body (`none` when unmarshalling fails). -/
def tokenFromResponse (statusCode : Nat) (body : String)
    (decoded : Option tokenResponse) : Except GoErr String :=
  if statusCode ≠ 200 then .error (.authFailed statusCode body)
  else match decoded with
  | none => .error .decodeFailed
  | some tr =>
    if tr.Token ≠ "" then .ok tr.Token
    else if tr.AccessToken ≠ "" then .ok tr.AccessToken
    else .error .noTokenInResponse

/-! ## Token Acquirer: WWW-Authenticate parsing (auth.go) -/

/-- Go `strings.TrimSpace` over a character list. -/
def trimSpaceL (l : List Char) : List Char :=
  ((l.dropWhile Char.isWhitespace).reverse.dropWhile Char.isWhitespace).reverse

/-- Go `strings.Trim(s, cutset)` for a one-character cutset. -/
def trimCharL (c : Char) (l : List Char) : List Char :=
  ((l.dropWhile (· == c)).reverse.dropWhile (· == c)).reverse

/-- One iteration of the parameter loop of `ParseWWWAuthenticate`
(auth.go, lines 238-256): accumulator is `(realm, service, scope)`. -/
def challengeStep (acc : String × String × String) (part : List Char) :
    String × String × String :=
  let part := trimSpaceL part
  match splitN2L '=' part with
  | [k, v] =>
    let key := trimSpaceL k
    let value := trimCharL '"' (trimSpaceL v)
    if key = "realm".toList then (⟨value⟩, acc.2.1, acc.2.2)
    else if key = "service".toList then (acc.1, ⟨value⟩, acc.2.2)
    else if key = "scope".toList then (acc.1, acc.2.1, ⟨value⟩)
    else acc
  | _ => acc

/-- `ParseWWWAuthenticate` (auth.go, lines 226-263): require the
`Bearer ` prefix, split the remainder on commas, collect
`realm`/`service`/`scope` parameters, require a realm. -/
def ParseWWWAuthenticate (header : String) : Except GoErr (String × String × String) :=
  if ¬ goHasPrefix header "Bearer " then .error .unsupportedAuthType
  else
    let params := header.toList.drop "Bearer ".toList.length
    let parts := splitCharL ',' params
    let acc := parts.foldl challengeStep ("", "", "")
    if acc.1 = "" then .error .realmNotFound
    else .ok acc

/-! ## Fetch Dispatcher (manifest_group.go, client.go)

Network I/O is a deterministic oracle.  `fetchSingleManifest`
(manifest_group.go, lines 192-208) dispatches on whether the sub-group
carries a batch token, and on both paths builds a `ManifestResult` whose
`Image`/`Tag` come from the spec and whose `Manifest`/`Digest`/`Error`
come from the network exchange; the oracle receives exactly the data that
determines that exchange — the spec and the group token. -/

/-- `ManifestResult` (client.go, lines 240-246).  The Go `error` field is
`Option String` (an error message, or `none` for success). -/
structure ManifestResult where
  Image : String
  Tag : String
  Manifest : String
  Digest : String
  Error : Option String
deriving DecidableEq, Repr

/-- The Go zero value filling `make([]ManifestResult, n)`. -/
def emptyManifestResult : ManifestResult :=
  { Image := "", Tag := "", Manifest := "", Digest := "", Error := none }

/-- The network-determined part of one manifest fetch. -/
structure netResult where
  Manifest : String
  Digest : String
  Error : Option String
deriving DecidableEq, Repr

/-- Deterministic mocked network for single-manifest fetches. -/
abbrev NetOracle := ImageSpec → groupToken → netResult

/-- Deterministic mocked network for `GetAuthTokenForImages` (images and
registry key to token or error). -/
abbrev BatchTokenOracle := List String → String → Except String String

/-- `fetchSingleManifest` (manifest_group.go, lines 192-208) over the
network oracle. -/
def fetchSingleManifest (net : NetOracle) (spec : ImageSpec) (token : groupToken) :
    ManifestResult :=
  let r := net spec token
  { Image := spec.Image, Tag := spec.Tag,
    Manifest := r.Manifest, Digest := r.Digest, Error := r.Error }

/-- `acquireBatchTokens` (manifest_group.go, lines 127-154): sub-groups
with at most one member are skipped; on oracle success the batch token is
attached, on failure the sub-group is left tokenless. -/
def acquireBatchTokens (getTok : BatchTokenOracle) (sgs : List subGroup) : List subGroup :=
  sgs.map (fun sg =>
    if sg.members.length ≤ 1 then sg
    else
      let images := sg.members.map (fun m => m.1.Image)
      match getTok images sg.registryKey with
      | .ok token => { sg with token := ⟨sg.registryKey, token⟩ }
      | .error _ => sg)

/-- Apply a sequence of result-slot writes to the result slice. -/
def runWrites (init : List ManifestResult) (writes : List (Nat × ManifestResult)) :
    List ManifestResult :=
  writes.foldl (fun acc w => acc.set w.1 w.2) init

/-- The slot writes a dispatch of `subGroups` performs: one write per
member, at its original index, of its fetched result. -/
def writesOf (net : NetOracle) (sgs : List subGroup) : List (Nat × ManifestResult) :=
  sgs.flatMap (fun sg =>
    sg.members.map (fun m => (m.2, fetchSingleManifest net m.1 sg.token)))

/-- `fetchManifestsSequentially` (manifest_group.go, lines 157-164):
iterate sub-groups and members in order, writing each result into the
slot at the member's original index. -/
def fetchManifestsSequentially (net : NetOracle) (sgs : List subGroup)
    (results : List ManifestResult) : List ManifestResult :=
  sgs.foldl (fun res sg =>
    sg.members.foldl (fun res m => res.set m.2 (fetchSingleManifest net m.1 sg.token)) res)
    results

/-- `fetchManifestsConcurrently` (manifest_group.go, lines 167-189): one
goroutine per member writes its own original-index slot; the counting
semaphore bounds how many run at once but any completion order is
possible, so the committed write order is an arbitrary reordering of the
write set, chosen here by the `schedule` oracle. -/
def fetchManifestsConcurrently (net : NetOracle)
    (schedule : List (Nat × ManifestResult) → List (Nat × ManifestResult))
    (sgs : List subGroup) (results : List ManifestResult) : List ManifestResult :=
  runWrites results (schedule (writesOf net sgs))

/-- `GetManifestsWithDigest` (client.go, lines 264-286): empty input short
-circuits to `nil`; otherwise group, optionally pre-acquire batch tokens,
then dispatch sequentially (`concurrency <= 0`) or concurrently. -/
def GetManifestsWithDigest (regs : RegistryDir) (net : NetOracle)
    (getTok : BatchTokenOracle)
    (schedule : List (Nat × ManifestResult) → List (Nat × ManifestResult))
    (imageSpecs : List ImageSpec) (concurrency : Int) (batchAuth : Bool)
    (maxBatchSize : Option Int) : List ManifestResult :=
  if imageSpecs.length = 0 then []
  else
    let subGroups := groupImagesByRegistry regs imageSpecs maxBatchSize
    let subGroups := if batchAuth then acquireBatchTokens getTok subGroups else subGroups
    let results := List.replicate imageSpecs.length emptyManifestResult
    if concurrency ≤ 0 then fetchManifestsSequentially net subGroups results
    else fetchManifestsConcurrently net schedule subGroups results

/-! ## Specification-side characterizations -/

/-- The `service` query parameters `composedAuthURL` actually emits, as a
(zero- or one-element) list of encoded `key=value` parameter strings: the
Docker Hub branch always sets `service`, the GHCR branch never does, the
default branch sets it exactly when `config.Service` is non-empty. -/
def serviceParamSpec (config : RegistryConfig) : List String :=
  if config.Key = DockerHubKey then ["service=" ++ queryEscape config.Service]
  else if config.Key = GHCRKey then []
  else if config.Service ≠ "" then ["service=" ++ queryEscape config.Service]
  else []

/-- The configuration `RegisterRegistry` actually stores under `key`:
the argument with `Key` forced to `key` and an empty `Name` defaulted. -/
def storedConfig (key : String) (config : RegistryConfig) : RegistryConfig :=
  { config with Key := key, Name := if config.Name = "" then key else config.Name }

/-- The Docker Hub built-in configuration (registry.go, lines 27-33). -/
def dockerHubConfig : RegistryConfig :=
  (builtinRegistries.lookup DockerHubKey).getD
    { Key := "", Name := "", RegistryURL := "", AuthURL := "", Service := "" }

/-- The GHCR built-in configuration (registry.go, lines 34-40). -/
def ghcrConfig : RegistryConfig :=
  (builtinRegistries.lookup GHCRKey).getD
    { Key := "", Name := "", RegistryURL := "", AuthURL := "", Service := "" }

/-! # Theorems -/

/-! ## C1 — flow selection for unknown domains -/

/-- C1: the claim says an image whose leading domain is in no directory
entry is fetched via the dynamic-discovery (`WWW-Authenticate`) flow.  The
code disagrees: `DetectRegistry` never produces a `custom:`-prefixed key,
so for `lscr.io/linuxserver/phpmyadmin` — whose domain `lscr.io` matches
no directory entry — `GetManifestWithDigest` selects the registered-
registry flow with key `dockerhub`, not dynamic discovery. -/
theorem c1_unknown_domain_gets_registered_flow :
    (∀ p ∈ builtinRegistries, goContains p.2.RegistryURL "lscr.io" = false) ∧
    manifestAuthFlow builtinRegistries "lscr.io/linuxserver/phpmyadmin" =
      .registered DockerHubKey := by
  decide

/-! ## C5 — effective max-group-size clamping -/

/-- C5 counterexample: the claim says a supplied max-group-size below 1 is
clamped to an effective limit of 1; the code resets any out-of-range value
to 30 instead, observably: with supplied size 0, two Docker Hub images end
up in one sub-group of 2 members (> 1). -/
theorem c5_counterexample_size_zero_gives_30 :
    effectiveMaxBatchSize (some 0) = 30 ∧ effectiveMaxBatchSize (some 0) ≠ 1 ∧
    (groupImagesByRegistry builtinRegistries
        [⟨"nginx", "latest"⟩, ⟨"redis", "alpine"⟩] (some 0)).map
      (fun sg => sg.members.length) = [2] := by
  refine ⟨by decide, by decide, ?_⟩
  rfl

/-- C5 amended: the effective max-group-size is the supplied value when it
lies in `[1, 30]`, and 30 otherwise — including when no value is supplied,
when the value exceeds 30, and (contrary to the claim) when it is below
1. -/
theorem c5_amended_effective_size (size : Option Int) :
    effectiveMaxBatchSize size =
      match size with
      | none => 30
      | some v => if 1 ≤ v ∧ v ≤ 30 then v else 30 := by
  cases size with
  | none => rfl
  | some v =>
    simp only [effectiveMaxBatchSize]
    split_ifs with h1 h2 h2 <;> omega

/-! ## C6 — auth URL length guard -/

/-- C6: `BuildAuthURLWithScopes` fails with `RequestTooLarge` exactly when
the composed URL's byte length exceeds 2048; on success the returned URL
is the composed URL itself (never truncated) and has length at most
2048. -/
theorem c6_url_length_guard (config : RegistryConfig) (scopes : List String) :
    ((∃ e, BuildAuthURLWithScopes config scopes = .error e) ↔
        utf8Len (composedAuthURL config scopes) > 2048) ∧
    (∀ e, BuildAuthURLWithScopes config scopes = .error e →
        e = .requestTooLarge (utf8Len (composedAuthURL config scopes))) ∧
    (∀ u, BuildAuthURLWithScopes config scopes = .ok u →
        u = composedAuthURL config scopes ∧ utf8Len u ≤ 2048) := by
  have hb : BuildAuthURLWithScopes config scopes =
      if utf8Len (composedAuthURL config scopes) > 2048 then
        .error (.requestTooLarge (utf8Len (composedAuthURL config scopes)))
      else .ok (composedAuthURL config scopes) := rfl
  rw [hb]
  by_cases h : utf8Len (composedAuthURL config scopes) > 2048
  · rw [if_pos h]
    refine ⟨⟨fun _ => h, fun _ => ⟨_, rfl⟩⟩, ?_, ?_⟩
    · intro e he
      cases he
      rfl
    · intro u hu
      simp at hu
  · rw [if_neg h]
    refine ⟨⟨fun he => ?_, fun hgt => absurd hgt h⟩, ?_, ?_⟩
    · obtain ⟨e, he⟩ := he
      simp at he
    · intro e he
      simp at he
    · intro u hu
      cases hu
      exact ⟨rfl, by omega⟩

/-- Concrete instance of `c6_url_length_guard` (Docker Hub configuration,
one scope), with the guarded hypotheses discharged. -/
theorem c6_witness :
    ((∃ e, BuildAuthURLWithScopes dockerHubConfig ["repository:library/nginx:pull"] = .error e) ↔
        utf8Len (composedAuthURL dockerHubConfig ["repository:library/nginx:pull"]) > 2048) ∧
    (∀ e, BuildAuthURLWithScopes dockerHubConfig ["repository:library/nginx:pull"] = .error e →
        e = .requestTooLarge
          (utf8Len (composedAuthURL dockerHubConfig ["repository:library/nginx:pull"]))) ∧
    (∀ u, BuildAuthURLWithScopes dockerHubConfig ["repository:library/nginx:pull"] = .ok u →
        u = composedAuthURL dockerHubConfig ["repository:library/nginx:pull"] ∧
          utf8Len u ≤ 2048) :=
  c6_url_length_guard dockerHubConfig ["repository:library/nginx:pull"]

/-! ## C7 — token endpoint response handling -/

/-- C7: a non-200 token-endpoint response is a hard failure carrying the
status code and body; on 200 the `token` field wins when non-empty, then
`access_token`, and when both are empty the result is the
no-token-in-response error. -/
theorem c7_token_response_handling (statusCode : Nat) (body : String)
    (decoded : Option tokenResponse) :
    (statusCode ≠ 200 →
        tokenFromResponse statusCode body decoded = .error (.authFailed statusCode body)) ∧
    (∀ tr, statusCode = 200 → decoded = some tr →
        (tr.Token ≠ "" → tokenFromResponse statusCode body decoded = .ok tr.Token) ∧
        (tr.Token = "" → tr.AccessToken ≠ "" →
            tokenFromResponse statusCode body decoded = .ok tr.AccessToken) ∧
        (tr.Token = "" → tr.AccessToken = "" →
            tokenFromResponse statusCode body decoded = .error .noTokenInResponse)) := by
  constructor
  · intro h
    simp [tokenFromResponse, h]
  · intro tr h200 hdec
    subst h200
    subst hdec
    refine ⟨fun ht => ?_, fun ht ha => ?_, fun ht ha => ?_⟩ <;>
      simp [tokenFromResponse, ht] <;> simp [ha]

/-- Concrete instance of `c7_token_response_handling`: a 200 response with
an empty `token` and non-empty `access_token` yields the `access_token`. -/
theorem c7_witness :
    tokenFromResponse 200 "" (some ⟨"", "fallback", 300⟩) = .ok "fallback" :=
  ((c7_token_response_handling 200 "" (some ⟨"", "fallback", 300⟩)).2
    ⟨"", "fallback", 300⟩ rfl rfl).2.1 rfl (by decide)

/-! ## C10 — empty batch input -/

/-- C10: `GetManifestsWithDigest` on an empty image-spec list returns
`nil` for every concurrency level, batch-auth flag and max-group-size
setting, and for every network behaviour (the oracles are unconstrained,
so no grouping, token acquisition or network request influences the
result). -/
theorem c10_empty_input_returns_nil (regs : RegistryDir) (net : NetOracle)
    (getTok : BatchTokenOracle)
    (schedule : List (Nat × ManifestResult) → List (Nat × ManifestResult))
    (concurrency : Int) (batchAuth : Bool) (maxBatchSize : Option Int) :
    GetManifestsWithDigest regs net getTok schedule [] concurrency batchAuth maxBatchSize
      = [] :=
  rfl

/-! ## C9 — directory lifecycle invariants -/

/-- Association-list lookup over an append: the left list wins. -/
theorem lookup_append (k : String) (l1 l2 : RegistryDir) :
    (l1 ++ l2).lookup k =
      match l1.lookup k with
      | some v => some v
      | none => l2.lookup k := by
  induction l1 with
  | nil => simp [List.lookup]
  | cons p l1 ih =>
    obtain ⟨a, b⟩ := p
    simp only [List.cons_append, List.lookup]
    cases h : (k == a) <;> simp [ih]

/-- Filtering out another key does not change a lookup. -/
theorem lookup_filter_ne (k k' : String) (l : RegistryDir) (h : k ≠ k') :
    (l.filter (fun p => p.1 != k')).lookup k = l.lookup k := by
  induction l with
  | nil => rfl
  | cons p l ih =>
    obtain ⟨a, b⟩ := p
    by_cases ha : a = k'
    · subst ha
      have hka : (k == a) = false := by simp [h]
      simp [List.filter, List.lookup, hka, ih]
    · have ha' : (a != k') = true := by simp [ha]
      simp only [List.filter, ha', List.lookup]
      cases hk : (k == a) <;> simp [ih]

/-- A successful registration stores exactly `storedConfig key config` at
the end of the directory, and requires the key to be fresh. -/
theorem registerRegistry_ok (regs : RegistryDir) (key : String) (config : RegistryConfig)
    (s' : RegistryDir) (h : RegisterRegistry regs key config = .ok s') :
    regs.lookup key = none ∧ s' = regs ++ [(key, storedConfig key config)] := by
  unfold RegisterRegistry at h
  split_ifs at h with h1 h2 h3 h4 <;> cases h <;>
    refine ⟨Option.not_isSome_iff_eq_none.mp h3, ?_⟩ <;>
    simp [storedConfig, h4]

/-- A directory mutation that is not `unregister key` preserves what
lookup returns for `key`. -/
theorem getRegistry_stepOp_preserved (regs : RegistryDir) (op : DirOp) (key : String)
    (v : RegistryConfig) (hop : op ≠ .unregister key)
    (h : GetRegistry regs key = some v) :
    GetRegistry (stepOp regs op) key = some v := by
  cases op with
  | register k c =>
    simp only [stepOp]
    cases hreg : RegisterRegistry regs k c with
    | error e => exact h
    | ok s =>
      obtain ⟨-, rfl⟩ := registerRegistry_ok regs k c s hreg
      unfold GetRegistry at h ⊢
      rw [lookup_append, h]
  | unregister k =>
    simp only [stepOp]
    cases hun : UnregisterRegistry regs k with
    | error e => exact h
    | ok s =>
      unfold UnregisterRegistry at hun
      split_ifs at hun with h1 h2 <;> cases hun
      have hk : key ≠ k := fun he => hop (by rw [he])
      show GetRegistry (regs.filter (fun p => p.1 != k)) key = some v
      unfold GetRegistry at h ⊢
      rw [lookup_filter_ne key k regs hk]
      exact h

/-- A sequence of mutations none of which unregisters `key` preserves
what lookup returns for `key`. -/
theorem getRegistry_fold_preserved (key : String) (v : RegistryConfig) :
    ∀ (ops : List DirOp) (regs : RegistryDir),
      (∀ op ∈ ops, op ≠ DirOp.unregister key) →
      GetRegistry regs key = some v →
      GetRegistry (ops.foldl stepOp regs) key = some v := by
  intro ops
  induction ops with
  | nil => intro regs _ h; exact h
  | cons op ops ih =>
    intro regs hops h
    exact ih (stepOp regs op) (fun o ho => hops o (List.mem_cons_of_mem op ho))
      (getRegistry_stepOp_preserved regs op key v (hops op (List.mem_cons_self op ops)) h)

/-- C9: registering under a built-in key (`dockerhub`, `ghcr`) fails with
the reserved-key error and leaves the directory unchanged; unregistering a
built-in fails with the reserved-key error and leaves the directory
unchanged; and a successfully registered custom key's configuration stays
retrievable via lookup across any sequence of further mutations that does
not explicitly unregister that key. -/
theorem c9_directory_lifecycle :
    (∀ (regs : RegistryDir) (config : RegistryConfig) (key : String),
        (key = DockerHubKey ∨ key = GHCRKey) →
        RegisterRegistry regs key config = .error (.reservedKey key) ∧
        stepOp regs (.register key config) = regs ∧
        UnregisterRegistry regs key = .error (.reservedDelete key) ∧
        stepOp regs (.unregister key) = regs) ∧
    (∀ (regs : RegistryDir) (key : String) (config : RegistryConfig) (s' : RegistryDir),
        RegisterRegistry regs key config = .ok s' →
        ∀ ops : List DirOp, (∀ op ∈ ops, op ≠ DirOp.unregister key) →
          GetRegistry (ops.foldl stepOp s') key = some (storedConfig key config)) := by
  constructor
  · intro regs config key hk
    rcases hk with rfl | rfl <;> exact ⟨rfl, rfl, rfl, rfl⟩
  · intro regs key config s' hreg ops hops
    obtain ⟨hnone, rfl⟩ := registerRegistry_ok regs key config s' hreg
    refine getRegistry_fold_preserved key (storedConfig key config) ops _ hops ?_
    unfold GetRegistry
    rw [lookup_append, hnone]
    simp [List.lookup]

/-- Concrete instance of `c9_directory_lifecycle`: registering `quay`
succeeds; after registering a further key and unregistering it again, the
`quay` configuration is still retrievable; and both built-ins reject
registration and deregistration. -/
theorem c9_witness :
    (RegisterRegistry builtinRegistries DockerHubKey
        ⟨"", "Quay", "https://quay.io", "https://quay.io", "quay.io"⟩
      = .error (.reservedKey DockerHubKey)) ∧
    (UnregisterRegistry builtinRegistries GHCRKey = .error (.reservedDelete GHCRKey)) ∧
    GetRegistry
      (([DirOp.register "other" ⟨"", "O", "https://o.io", "https://o.io", ""⟩,
         DirOp.unregister "other"].foldl stepOp
        (builtinRegistries ++
          [("quay", storedConfig "quay" ⟨"", "Quay", "https://quay.io", "https://quay.io", "quay.io"⟩)])))
      "quay"
      = some (storedConfig "quay" ⟨"", "Quay", "https://quay.io", "https://quay.io", "quay.io"⟩) := by
  refine ⟨?_, ?_, ?_⟩
  · exact (c9_directory_lifecycle.1 builtinRegistries
      ⟨"", "Quay", "https://quay.io", "https://quay.io", "quay.io"⟩ DockerHubKey (Or.inl rfl)).1
  · exact (c9_directory_lifecycle.1 builtinRegistries
      ⟨"", "Quay", "https://quay.io", "https://quay.io", "quay.io"⟩ GHCRKey (Or.inr rfl)).2.2.1
  · exact c9_directory_lifecycle.2 builtinRegistries "quay"
      ⟨"", "Quay", "https://quay.io", "https://quay.io", "quay.io"⟩ _ rfl
      [DirOp.register "other" ⟨"", "O", "https://o.io", "https://o.io", ""⟩,
       DirOp.unregister "other"] (by decide)

/-! ## C8 — WWW-Authenticate challenge parsing -/

theorem splitCharL_no_sep (sep : Char) (l : List Char) (h : sep ∉ l) :
    splitCharL sep l = [l] := by
  induction l with
  | nil => rfl
  | cons c cs ih =>
    have hc : c ≠ sep := fun he => h (he ▸ List.mem_cons_self c cs)
    have hcs : sep ∉ cs := fun hm => h (List.mem_cons_of_mem c hm)
    simp only [splitCharL, if_neg hc, ih hcs]

theorem splitCharL_append (sep : Char) (a b : List Char) (ha : sep ∉ a) :
    splitCharL sep (a ++ sep :: b) = a :: splitCharL sep b := by
  induction a with
  | nil => simp [splitCharL]
  | cons c cs ih =>
    have hc : c ≠ sep := fun he => ha (he ▸ List.mem_cons_self c cs)
    have hcs : sep ∉ cs := fun hm => ha (List.mem_cons_of_mem c hm)
    rw [List.cons_append]
    simp only [splitCharL, if_neg hc]
    rw [ih hcs]

theorem breakAtChar_append (sep : Char) (a b : List Char) (ha : sep ∉ a) :
    breakAtChar sep (a ++ sep :: b) = some (a, b) := by
  induction a with
  | nil => simp [breakAtChar]
  | cons c cs ih =>
    have hc : c ≠ sep := fun he => ha (he ▸ List.mem_cons_self c cs)
    have hcs : sep ∉ cs := fun hm => ha (List.mem_cons_of_mem c hm)
    rw [List.cons_append]
    simp only [breakAtChar, if_neg hc]
    rw [ih hcs]

theorem dropWhile_eq_self_of_forall (p : Char → Bool) (l : List Char)
    (h : ∀ a ∈ l, p a = false) : l.dropWhile p = l := by
  cases l with
  | nil => rfl
  | cons c cs =>
    exact List.dropWhile_cons_of_neg (by simp [h c (List.mem_cons_self c cs)])

theorem trimSpaceL_wrapped (c1 : Char) (m : List Char) (c2 : Char)
    (h1 : c1.isWhitespace = false) (h2 : c2.isWhitespace = false) :
    trimSpaceL ((c1 :: m) ++ [c2]) = (c1 :: m) ++ [c2] := by
  unfold trimSpaceL
  rw [List.cons_append, List.dropWhile_cons_of_neg (by simp [h1])]
  rw [show (c1 :: (m ++ [c2])).reverse = c2 :: ((m.reverse) ++ [c1]) from by simp]
  rw [List.dropWhile_cons_of_neg (by simp [h2])]
  simp

theorem trimCharL_quoted (x : List Char) (hx : '"' ∉ x) :
    trimCharL '"' (('"' :: x) ++ ['"']) = x := by
  cases x with
  | nil => rfl
  | cons c cs =>
    have hc : c ≠ '"' := fun he => hx (he ▸ List.mem_cons_self c cs)
    have hcs : ∀ a ∈ (cs.reverse ++ [c]), (a == '"') = false := by
      intro a ha
      have : a ∈ c :: cs := by
        rcases List.mem_append.mp ha with h | h
        · exact List.mem_cons_of_mem c (List.mem_reverse.mp h)
        · rw [List.mem_singleton.mp h]; exact List.mem_cons_self c cs
      have hne : a ≠ '"' := fun he => hx (he ▸ this)
      simp [hne]
    unfold trimCharL
    rw [List.cons_append, List.dropWhile_cons_of_pos (by simp)]
    rw [List.cons_append, List.dropWhile_cons_of_neg (by simp [hc])]
    rw [show (c :: (cs ++ ['"'])).reverse = '"' :: (cs.reverse ++ [c]) from by simp]
    rw [List.dropWhile_cons_of_pos (by simp)]
    rw [dropWhile_eq_self_of_forall _ _ hcs]
    simp

theorem challengeStep_realm (acc : String × String × String) (V : List Char) (hV : '"' ∉ V) :
    challengeStep acc ("realm=\"".toList ++ V ++ ['"']) = (⟨V⟩, acc.2.1, acc.2.2) := by
  have hpart : "realm=\"".toList ++ V ++ ['"'] = ('r' :: ("ealm=\"".toList ++ V)) ++ ['"'] := by
    simp
  simp only [challengeStep]
  rw [hpart, trimSpaceL_wrapped _ _ _ (by decide) (by decide)]
  have hre : ('r' :: ("ealm=\"".toList ++ V)) ++ ['"']
      = "realm".toList ++ '=' :: (('"' :: V) ++ ['"']) := by simp
  rw [hre]
  have hsplit : splitN2L '=' ("realm".toList ++ '=' :: (('"' :: V) ++ ['"']))
      = ["realm".toList, ('"' :: V) ++ ['"']] := by
    unfold splitN2L
    rw [breakAtChar_append '=' _ _ (by decide)]
  rw [hsplit]
  have h1 : trimSpaceL "realm".toList = "realm".toList := by decide
  have h2 : trimSpaceL (('"' :: V) ++ ['"']) = ('"' :: V) ++ ['"'] :=
    trimSpaceL_wrapped _ _ _ (by decide) (by decide)
  simp only [h1, h2, trimCharL_quoted V hV, if_pos]

theorem challengeStep_service (acc : String × String × String) (V : List Char) (hV : '"' ∉ V) :
    challengeStep acc ("service=\"".toList ++ V ++ ['"']) = (acc.1, ⟨V⟩, acc.2.2) := by
  have hpart : "service=\"".toList ++ V ++ ['"'] = ('s' :: ("ervice=\"".toList ++ V)) ++ ['"'] := by
    simp
  simp only [challengeStep]
  rw [hpart, trimSpaceL_wrapped _ _ _ (by decide) (by decide)]
  have hre : ('s' :: ("ervice=\"".toList ++ V)) ++ ['"']
      = "service".toList ++ '=' :: (('"' :: V) ++ ['"']) := by simp
  rw [hre]
  have hsplit : splitN2L '=' ("service".toList ++ '=' :: (('"' :: V) ++ ['"']))
      = ["service".toList, ('"' :: V) ++ ['"']] := by
    unfold splitN2L
    rw [breakAtChar_append '=' _ _ (by decide)]
  rw [hsplit]
  have h1 : trimSpaceL "service".toList = "service".toList := by decide
  have h2 : trimSpaceL (('"' :: V) ++ ['"']) = ('"' :: V) ++ ['"'] :=
    trimSpaceL_wrapped _ _ _ (by decide) (by decide)
  simp only [h1, h2, trimCharL_quoted V hV,
    if_neg (show ¬ ("service".toList = "realm".toList) from by decide), if_pos]

theorem challengeStep_scope (acc : String × String × String) (V : List Char) (hV : '"' ∉ V) :
    challengeStep acc ("scope=\"".toList ++ V ++ ['"']) = (acc.1, acc.2.1, ⟨V⟩) := by
  have hpart : "scope=\"".toList ++ V ++ ['"'] = ('s' :: ("cope=\"".toList ++ V)) ++ ['"'] := by
    simp
  simp only [challengeStep]
  rw [hpart, trimSpaceL_wrapped _ _ _ (by decide) (by decide)]
  have hre : ('s' :: ("cope=\"".toList ++ V)) ++ ['"']
      = "scope".toList ++ '=' :: (('"' :: V) ++ ['"']) := by simp
  rw [hre]
  have hsplit : splitN2L '=' ("scope".toList ++ '=' :: (('"' :: V) ++ ['"']))
      = ["scope".toList, ('"' :: V) ++ ['"']] := by
    unfold splitN2L
    rw [breakAtChar_append '=' _ _ (by decide)]
  rw [hsplit]
  have h1 : trimSpaceL "scope".toList = "scope".toList := by decide
  have h2 : trimSpaceL (('"' :: V) ++ ['"']) = ('"' :: V) ++ ['"'] :=
    trimSpaceL_wrapped _ _ _ (by decide) (by decide)
  simp only [h1, h2, trimCharL_quoted V hV,
    if_neg (show ¬ ("scope".toList = "realm".toList) from by decide),
    if_neg (show ¬ ("scope".toList = "service".toList) from by decide), if_pos]

theorem not_mem_wrap (ch : Char) (pre V : List Char) (h1 : ch ∉ pre) (h2 : ch ∉ V)
    (h3 : ch ≠ '"') : ch ∉ pre ++ V ++ ['"'] := by
  intro hm
  rcases List.mem_append.mp hm with hm | hm
  · rcases List.mem_append.mp hm with hm | hm
    · exact h1 hm
    · exact h2 hm
  · exact h3 (List.mem_singleton.mp hm)

theorem toList_append4 (s t : String) : (s ++ t).toList = s.toList ++ t.toList :=
  String.data_append s t

theorem parse_wwwauth_ok_full (R S C : String) (hR0 : R ≠ "")
    (hRc : ',' ∉ R.toList) (hRq : '"' ∉ R.toList)
    (hSc : ',' ∉ S.toList) (hSq : '"' ∉ S.toList)
    (hCc : ',' ∉ C.toList) (hCq : '"' ∉ C.toList) :
    ParseWWWAuthenticate
      ("Bearer realm=\"" ++ R ++ "\",service=\"" ++ S ++ "\",scope=\"" ++ C ++ "\"")
      = .ok (R, S, C) := by
  have hlist : ("Bearer realm=\"" ++ R ++ "\",service=\"" ++ S ++ "\",scope=\"" ++ C ++ "\"").toList
      = "Bearer ".toList ++
        (("realm=\"".toList ++ R.toList ++ ['"']) ++
          ',' :: (("service=\"".toList ++ S.toList ++ ['"']) ++
            ',' :: ("scope=\"".toList ++ C.toList ++ ['"']))) := by
    have e1 : "Bearer realm=\"".toList = "Bearer ".toList ++ "realm=\"".toList := by decide
    have e2 : "\",service=\"".toList = '"' :: ',' :: "service=\"".toList := by decide
    have e3 : "\",scope=\"".toList = '"' :: ',' :: "scope=\"".toList := by decide
    have e4 : "\"".toList = ['"'] := by decide
    simp only [toList_append4, e1, e2, e3, e4, List.append_assoc, List.cons_append,
      List.singleton_append, List.nil_append]
  have hpre : goHasPrefix
      ("Bearer realm=\"" ++ R ++ "\",service=\"" ++ S ++ "\",scope=\"" ++ C ++ "\"") "Bearer "
      = true := by
    rw [goHasPrefix, hlist]
    exact List.isPrefixOf_iff_prefix.mpr (List.prefix_append _ _)
  simp only [ParseWWWAuthenticate, hpre, Bool.true_eq_false, not_true_eq_false, if_false,
    not_true, ite_false]
  rw [hlist]
  rw [show ("Bearer ".toList.length) = ("Bearer ".toList).length from rfl]
  rw [List.drop_left]
  have hp1 : ',' ∉ "realm=\"".toList ++ R.toList ++ ['"'] :=
    not_mem_wrap ',' _ _ (by decide) hRc (by decide)
  have hp2 : ',' ∉ "service=\"".toList ++ S.toList ++ ['"'] :=
    not_mem_wrap ',' _ _ (by decide) hSc (by decide)
  have hp3 : ',' ∉ "scope=\"".toList ++ C.toList ++ ['"'] :=
    not_mem_wrap ',' _ _ (by decide) hCc (by decide)
  rw [splitCharL_append ',' _ _ hp1, splitCharL_append ',' _ _ hp2, splitCharL_no_sep ',' _ hp3]
  simp only [List.foldl_cons, List.foldl_nil]
  rw [challengeStep_realm _ _ hRq, challengeStep_service _ _ hSq, challengeStep_scope _ _ hCq]
  rw [if_neg (show ¬ ((⟨R.toList⟩ : String) = "") from hR0)]
  rfl

theorem parse_wwwauth_ok_realm_only (R : String) (hR0 : R ≠ "") (hRc : ',' ∉ R.toList) (hRq : '"' ∉ R.toList) :
    ParseWWWAuthenticate ("Bearer realm=\"" ++ R ++ "\"") = .ok (R, "", "") := by
  have hlist : ("Bearer realm=\"" ++ R ++ "\"").toList
      = "Bearer ".toList ++ ("realm=\"".toList ++ R.toList ++ ['"']) := by
    have e1 : "Bearer realm=\"".toList = "Bearer ".toList ++ "realm=\"".toList := by decide
    have e4 : "\"".toList = ['"'] := by decide
    simp only [toList_append4, e1, e4, List.append_assoc]
  have hpre : goHasPrefix ("Bearer realm=\"" ++ R ++ "\"") "Bearer " = true := by
    rw [goHasPrefix, hlist]
    exact List.isPrefixOf_iff_prefix.mpr (List.prefix_append _ _)
  simp only [ParseWWWAuthenticate, hpre, Bool.true_eq_false, not_true_eq_false, if_false,
    not_true, ite_false]
  rw [hlist]
  rw [show ("Bearer ".toList.length) = ("Bearer ".toList).length from rfl]
  rw [List.drop_left]
  have hp1 : ',' ∉ "realm=\"".toList ++ R.toList ++ ['"'] :=
    not_mem_wrap ',' _ _ (by decide) hRc (by decide)
  rw [splitCharL_no_sep ',' _ hp1]
  simp only [List.foldl_cons, List.foldl_nil]
  rw [challengeStep_realm _ _ hRq]
  rw [if_neg (show ¬ ((⟨R.toList⟩ : String) = "") from hR0)]
  rfl

theorem parse_wwwauth_no_prefix (header : String) (h : goHasPrefix header "Bearer " = false) :
    ParseWWWAuthenticate header = .error .unsupportedAuthType := by
  simp only [ParseWWWAuthenticate, h, Bool.false_eq_true, not_false_eq_true, if_true, ite_true]

theorem fold_realm_invariant (parts : List (List Char)) :
    ∀ acc : String × String × String,
      (∀ part ∈ parts, ∀ k v, splitN2L '=' (trimSpaceL part) = [k, v] →
        trimSpaceL k ≠ "realm".toList) →
      (parts.foldl challengeStep acc).1 = acc.1 := by
  induction parts with
  | nil => intro acc _; rfl
  | cons part parts ih =>
    intro acc hps
    rw [List.foldl_cons]
    rw [ih (challengeStep acc part) (fun p hp => hps p (List.mem_cons_of_mem part hp))]
    have hpart := hps part (List.mem_cons_self part parts)
    simp only [challengeStep]
    cases hsp : splitN2L '=' (trimSpaceL part) with
    | nil => rfl
    | cons k rest =>
      cases rest with
      | nil => rfl
      | cons v rest2 =>
        cases rest2 with
        | nil =>
          have hk := hpart k v hsp
          simp only [if_neg hk]
          split_ifs <;> rfl
        | cons w rest3 => rfl

theorem parse_wwwauth_no_realm (header : String) (h : goHasPrefix header "Bearer " = true)
    (hnr : ∀ part ∈ splitCharL ',' (header.toList.drop "Bearer ".toList.length),
      ∀ k v, splitN2L '=' (trimSpaceL part) = [k, v] → trimSpaceL k ≠ "realm".toList) :
    ParseWWWAuthenticate header = .error .realmNotFound := by
  simp only [ParseWWWAuthenticate, h, Bool.true_eq_false, not_true_eq_false, if_false,
    not_true, ite_false]
  rw [fold_realm_invariant _ _ hnr]
  simp


/-- C8: parsing `Bearer realm="R",service="S",scope="C"` yields exactly
`(R, S, C)`; a header `Bearer realm="R"` without service/scope parameters
yields `(R, "", "")` (absent parameters come back empty); a header without
the `Bearer ` prefix fails with the unsupported-auth-type error; and a
`Bearer` header none of whose `key=value` parameters has key `realm` fails
with the realm-not-found error.  `R`, `S`, `C` range over all strings free
of `,` and `"` (which would terminate the quoting), `R` non-empty. -/
theorem c8_challenge_parsing :
    (∀ R S C : String, R ≠ "" →
      ',' ∉ R.toList → '"' ∉ R.toList → ',' ∉ S.toList → '"' ∉ S.toList →
      ',' ∉ C.toList → '"' ∉ C.toList →
      ParseWWWAuthenticate
          ("Bearer realm=\"" ++ R ++ "\",service=\"" ++ S ++ "\",scope=\"" ++ C ++ "\"")
        = .ok (R, S, C)) ∧
    (∀ R : String, R ≠ "" → ',' ∉ R.toList → '"' ∉ R.toList →
      ParseWWWAuthenticate ("Bearer realm=\"" ++ R ++ "\"") = .ok (R, "", "")) ∧
    (∀ header : String, goHasPrefix header "Bearer " = false →
      ParseWWWAuthenticate header = .error .unsupportedAuthType) ∧
    (∀ header : String, goHasPrefix header "Bearer " = true →
      (∀ part ∈ splitCharL ',' (header.toList.drop "Bearer ".toList.length),
        ∀ k v, splitN2L '=' (trimSpaceL part) = [k, v] → trimSpaceL k ≠ "realm".toList) →
      ParseWWWAuthenticate header = .error .realmNotFound) :=
  ⟨parse_wwwauth_ok_full, parse_wwwauth_ok_realm_only, parse_wwwauth_no_prefix,
    parse_wwwauth_no_realm⟩

/-- Concrete instance of `c8_challenge_parsing`: the specification's own
example challenge parses to its three components, and a `Basic` challenge
is rejected. -/
theorem c8_witness :
    ParseWWWAuthenticate
        ("Bearer realm=\"" ++ "https://auth.example.com/token" ++ "\",service=\"" ++ "svc"
          ++ "\",scope=\"" ++ "repository:a/b:pull" ++ "\"")
      = .ok ("https://auth.example.com/token", "svc", "repository:a/b:pull") ∧
    ParseWWWAuthenticate "Basic realm=\"x\"" = .error .unsupportedAuthType :=
  ⟨c8_challenge_parsing.1 "https://auth.example.com/token" "svc" "repository:a/b:pull"
      (by decide) (by decide) (by decide) (by decide) (by decide) (by decide) (by decide),
    c8_challenge_parsing.2.2.1 "Basic realm=\"x\"" (by decide)⟩

/-! ## C4 — token-auth URL composition -/

theorem addScopes_service_scope (svc : String) (scopes : List String) :
    ∀ acc : List String,
      scopes.foldl (fun ps s => valuesAdd ps "scope" s) [("service", [svc]), ("scope", acc)]
        = [("service", [svc]), ("scope", acc ++ scopes)] := by
  induction scopes with
  | nil => intro acc; simp
  | cons s ss ih =>
    intro acc
    rw [List.foldl_cons]
    have hstep : valuesAdd [("service", [svc]), ("scope", acc)] "scope" s
        = [("service", [svc]), ("scope", acc ++ [s])] := by
      simp [valuesAdd, List.lookup]
    rw [hstep, ih (acc ++ [s])]
    simp

theorem addScopes_scope_only (scopes : List String) :
    ∀ acc : List String,
      scopes.foldl (fun ps s => valuesAdd ps "scope" s) [("scope", acc)]
        = [("scope", acc ++ scopes)] := by
  induction scopes with
  | nil => intro acc; simp
  | cons s ss ih =>
    intro acc
    rw [List.foldl_cons]
    have hstep : valuesAdd [("scope", acc)] "scope" s = [("scope", acc ++ [s])] := by
      simp [valuesAdd, List.lookup]
    rw [hstep, ih (acc ++ [s])]
    simp

theorem encode_service_scope (svc : String) (vs : List String) :
    valuesEncode [("service", [svc]), ("scope", vs)]
      = joinAmp (vs.map (fun v => "scope=" ++ queryEscape v) ++ ["service=" ++ queryEscape svc]) := by
  unfold valuesEncode
  simp only [List.map_cons, List.map_nil]
  rw [show sortStrings ["service", "scope"] = ["scope", "service"] from by decide]
  have hq1 : queryEscape "scope" = "scope" := by decide
  have hq2 : queryEscape "service" = "service" := by decide
  simp [List.flatMap, List.lookup, hq1, hq2]

theorem encode_scope_only (vs : List String) :
    valuesEncode [("scope", vs)] = joinAmp (vs.map (fun v => "scope=" ++ queryEscape v)) := by
  unfold valuesEncode
  simp only [List.map_cons, List.map_nil]
  rw [show sortStrings ["scope"] = ["scope"] from by decide]
  have hq1 : queryEscape "scope" = "scope" := by decide
  simp [List.flatMap, List.lookup, hq1]

theorem encode_service_only (svc : String) :
    valuesEncode [("service", [svc])] = "service=" ++ queryEscape svc := by
  unfold valuesEncode
  simp only [List.map_cons, List.map_nil]
  rw [show sortStrings ["service"] = ["service"] from by decide]
  have hq2 : queryEscape "service" = "service" := by decide
  simp [List.flatMap, List.lookup, hq2, joinAmp]

theorem append_token_q (s : String) : s ++ "/token" ++ "?" = s ++ "/token?" := by
  rw [String.append_assoc]
  rfl

/-- C4 amended: for every configuration and scope list, the composed URL
is `{authBaseURL}/token?q` where `q` lists one `scope=` parameter per
scope, in order (before the `service` parameter — Go's `url.Values.Encode`
emits keys sorted), and the `service` parameter is: always present (with
the configuration's service string) for the `dockerhub` key; never present
for the `ghcr` key regardless of the configuration's service string (the
GHCR built-in carries the non-empty service `ghcr.io`); and present
iff the service string is non-empty only for custom keys. -/
theorem c4_amended_url_composition (config : RegistryConfig) (scopes : List String) :
    composedAuthURL config scopes =
      config.AuthURL ++ "/token?" ++
        joinAmp (scopes.map (fun s => "scope=" ++ queryEscape s) ++ serviceParamSpec config) := by
  unfold composedAuthURL serviceParamSpec
  by_cases hk1 : config.Key = DockerHubKey
  · simp only [if_pos hk1]
    have hset : valuesSet [] "service" config.Service = [("service", [config.Service])] := by
      simp [valuesSet, List.lookup]
    rw [hset]
    cases scopes with
    | nil =>
      simp only [List.foldl_nil, encode_service_only, List.map_nil, List.nil_append]
      rw [show joinAmp ["service=" ++ queryEscape config.Service]
            = "service=" ++ queryEscape config.Service from rfl, append_token_q]
    | cons s ss =>
      rw [List.foldl_cons]
      have hstep : valuesAdd [("service", [config.Service])] "scope" s
          = [("service", [config.Service]), ("scope", [s])] := by
        simp [valuesAdd, List.lookup]
      rw [hstep, addScopes_service_scope _ ss [s], encode_service_scope, append_token_q]
      simp [String.append_assoc]
  · by_cases hk2 : config.Key = GHCRKey
    · simp only [if_neg hk1, if_pos hk2]
      cases scopes with
      | nil =>
        rw [List.foldl_nil, append_token_q]
        rfl
      | cons s ss =>
        rw [List.foldl_cons]
        have hstep : valuesAdd [] "scope" s = [("scope", [s])] := by
          simp [valuesAdd, List.lookup]
        rw [hstep, addScopes_scope_only ss [s], encode_scope_only, append_token_q]
        simp [String.append_assoc]
    · simp only [if_neg hk1, if_neg hk2]
      by_cases hsvc : config.Service = ""
      · simp only [hsvc, ne_eq, not_true_eq_false, if_false, ite_false]
        cases scopes with
        | nil =>
          rw [List.foldl_nil, append_token_q]
          rfl
        | cons s ss =>
          rw [List.foldl_cons]
          have hstep : valuesAdd [] "scope" s = [("scope", [s])] := by
            simp [valuesAdd, List.lookup]
          rw [hstep, addScopes_scope_only ss [s], encode_scope_only, append_token_q]
          simp [String.append_assoc]
      · simp only [ne_eq, hsvc, not_false_eq_true, if_true, ite_true]
        have hset : valuesSet [] "service" config.Service = [("service", [config.Service])] := by
          simp [valuesSet, List.lookup]
        rw [hset]
        cases scopes with
        | nil =>
          simp only [List.foldl_nil, encode_service_only, List.map_nil, List.nil_append]
          rw [show joinAmp ["service=" ++ queryEscape config.Service]
                = "service=" ++ queryEscape config.Service from rfl, append_token_q]
        | cons s ss =>
          rw [List.foldl_cons]
          have hstep : valuesAdd [("service", [config.Service])] "scope" s
              = [("service", [config.Service]), ("scope", [s])] := by
            simp [valuesAdd, List.lookup]
          rw [hstep, addScopes_service_scope _ ss [s], encode_service_scope, append_token_q]
          simp [String.append_assoc]

/-- C4 counterexample: the claim says the service parameter is present iff
the configuration's service string is non-empty; the GHCR built-in has the
non-empty service string `ghcr.io`, yet its composed URL carries no
`service=` parameter. -/
theorem c4_counterexample_ghcr_service :
    ghcrConfig.Service ≠ "" ∧
    BuildAuthURLWithScopes ghcrConfig ["repository:o/r:pull"]
      = .ok "https://ghcr.io/token?scope=repository%3Ao%2Fr%3Apull" ∧
    goContains "https://ghcr.io/token?scope=repository%3Ao%2Fr%3Apull" "service=" = false := by
  refine ⟨by decide, ?_, by decide⟩
  rfl

/-! ## C2 — batch-planner grouping invariants -/


theorem chunkList_flatten (n : Nat) (l : List α) : (chunkList n l).flatten = l := by
  have key : ∀ (m : Nat) (l : List α), l.length ≤ m → (chunkList n l).flatten = l := by
    intro m
    induction m with
    | zero =>
      intro l hl
      rw [Nat.le_zero, List.length_eq_zero] at hl
      subst hl
      simp [chunkList]
    | succ m ih =>
      intro l hl
      cases l with
      | nil => simp [chunkList]
      | cons x xs =>
        rw [chunkList, List.flatten_cons]
        rw [ih (xs.drop n) ?_]
        · simp [List.take_append_drop]
        · simp only [List.length_drop, List.length_cons] at hl ⊢
          omega
  exact key l.length l le_rfl

theorem chunkList_mem_length (n : Nat) (l : List α) (c : List α) (hc : c ∈ chunkList n l) :
    c.length ≤ n + 1 := by
  have key : ∀ (m : Nat) (l : List α), l.length ≤ m → ∀ c ∈ chunkList n l, c.length ≤ n + 1 := by
    intro m
    induction m with
    | zero =>
      intro l hl
      rw [Nat.le_zero, List.length_eq_zero] at hl
      subst hl
      intro c hc
      simp [chunkList] at hc
    | succ m ih =>
      intro l hl c hc
      cases l with
      | nil => simp [chunkList] at hc
      | cons x xs =>
        rw [chunkList] at hc
        rcases List.mem_cons.mp hc with rfl | hc
        · simp only [List.length_cons, List.length_take]
          omega
        · refine ih (xs.drop n) ?_ c hc
          simp only [List.length_drop, List.length_cons] at hl ⊢
          omega
  exact key l.length l le_rfl c hc

theorem insertSpec_members_perm (gs : List registryGroup) (key : String) (item : ImageSpec × Nat) :
    ((insertSpec gs key item).flatMap registryGroup.members).Perm
      ((gs.flatMap registryGroup.members) ++ [item]) := by
  induction gs with
  | nil => simp [insertSpec]
  | cons g gs ih =>
    rw [insertSpec]
    split
    · simp only [List.flatMap_cons, List.append_assoc]
      exact List.Perm.append_left g.members List.perm_append_comm
    · simp only [List.flatMap_cons, List.append_assoc]
      exact List.Perm.append_left g.members ih

theorem foldl_insertSpec_perm (regs : RegistryDir) (l : List (Nat × ImageSpec)) :
    ∀ gs : List registryGroup,
      ((l.foldl (fun gs p => insertSpec gs (DetectRegistry regs p.2.Image) (p.2, p.1)) gs).flatMap
          registryGroup.members).Perm
        ((gs.flatMap registryGroup.members) ++ l.map (fun p => (p.2, p.1))) := by
  induction l with
  | nil => intro gs; simp
  | cons a l ih =>
    intro gs
    rw [List.foldl_cons, List.map_cons]
    refine (ih (insertSpec gs (DetectRegistry regs a.2.Image) (a.2, a.1))).trans ?_
    refine (List.Perm.append_right _ (insertSpec_members_perm gs _ _)).trans ?_
    simp only [List.append_assoc, List.singleton_append]
    exact List.Perm.refl _

theorem primaryGroups_members_perm (regs : RegistryDir) (specs : List ImageSpec) :
    ((primaryGroups regs specs).flatMap registryGroup.members).Perm
      (specs.enum.map (fun p => (p.2, p.1))) := by
  unfold primaryGroups
  simpa using foldl_insertSpec_perm regs specs.enum []

theorem insertSpec_key_invariant (gs : List registryGroup) (key : String) (item : ImageSpec × Nat)
    (P : ImageSpec × Nat → String → Prop)
    (hgs : ∀ g ∈ gs, ∀ m ∈ g.members, P m g.registryKey) (hitem : P item key) :
    ∀ g ∈ insertSpec gs key item, ∀ m ∈ g.members, P m g.registryKey := by
  induction gs with
  | nil =>
    intro g hg m hm
    rw [insertSpec] at hg
    rcases List.mem_singleton.mp hg with rfl
    rcases List.mem_singleton.mp hm with rfl
    exact hitem
  | cons g0 gs ih =>
    intro g hg m hm
    rw [insertSpec] at hg
    split at hg
    case isTrue heq =>
      rcases List.mem_cons.mp hg with rfl | hg
      · rcases List.mem_append.mp hm with hm | hm
        · exact heq ▸ hgs g0 (List.mem_cons_self g0 gs) m hm
        · rcases List.mem_singleton.mp hm with rfl
          exact hitem
      · exact hgs g (List.mem_cons_of_mem g0 hg) m hm
    case isFalse hne =>
      rcases List.mem_cons.mp hg with rfl | hg
      · exact hgs g (List.mem_cons_self g gs) m hm
      · exact ih (fun g' hg' m' hm' => hgs g' (List.mem_cons_of_mem g0 hg') m' hm') g hg m hm

theorem primaryGroups_key (regs : RegistryDir) (specs : List ImageSpec) :
    ∀ g ∈ primaryGroups regs specs, ∀ m ∈ g.members,
      DetectRegistry regs m.1.Image = g.registryKey := by
  unfold primaryGroups
  have key : ∀ (l : List (Nat × ImageSpec)) (gs : List registryGroup),
      (∀ g ∈ gs, ∀ m ∈ g.members, DetectRegistry regs m.1.Image = g.registryKey) →
      ∀ g ∈ l.foldl (fun gs p => insertSpec gs (DetectRegistry regs p.2.Image) (p.2, p.1)) gs,
        ∀ m ∈ g.members, DetectRegistry regs m.1.Image = g.registryKey := by
    intro l
    induction l with
    | nil => intro gs h; exact h
    | cons a l ih =>
      intro gs h
      rw [List.foldl_cons]
      refine ih _ ?_
      exact insertSpec_key_invariant gs _ _ (fun m k => DetectRegistry regs m.1.Image = k) h rfl
  intro g hg
  exact key specs.enum [] (by intro g hg; cases hg) g hg

theorem effectiveMaxBatchSize_bounds (size : Option Int) :
    1 ≤ effectiveMaxBatchSize size ∧ effectiveMaxBatchSize size ≤ 30 := by
  cases size with
  | none => simp [effectiveMaxBatchSize]
  | some v =>
    simp only [effectiveMaxBatchSize]
    split_ifs with h <;> omega

theorem groupImages_members_eq (regs : RegistryDir) (specs : List ImageSpec)
    (size : Option Int) :
    (groupImagesByRegistry regs specs size).flatMap subGroup.members
      = (primaryGroups regs specs).flatMap registryGroup.members := by
  unfold groupImagesByRegistry
  rw [List.flatMap_assoc]
  have hbr : ∀ g : registryGroup,
      ((if g.members.length > (effectiveMaxBatchSize size).toNat then
          List.map (fun c => subGroup.mk g.registryKey c noToken)
            (chunkList ((effectiveMaxBatchSize size).toNat - 1) g.members)
        else [subGroup.mk g.registryKey g.members noToken]).flatMap subGroup.members)
        = g.members := by
    intro g
    split
    · rw [List.flatMap_map]
      have : (fun c => subGroup.members (subGroup.mk g.registryKey c noToken))
          = fun c : List (ImageSpec × Nat) => c := rfl
      rw [this]
      rw [show ∀ L : List (List (ImageSpec × Nat)), (L.flatMap fun c => c) = L.flatten from
        fun L => by induction L with
          | nil => rfl
          | cons x xs ih => simp [List.flatMap_cons, ih]]
      exact chunkList_flatten _ _
    · simp
  simp only [hbr]

/-- C2: for every input list and max-group-size setting, the sub-groups
produced by `groupImagesByRegistry` satisfy: the multiset of all original
indices is exactly `{0, ..., n-1}` (a permutation of `range n` — no image
lost or duplicated); no sub-group has more members than the effective max
size; and every member of a sub-group has the sub-group's detected
registry key. -/
theorem c2_grouping_invariants (regs : RegistryDir) (specs : List ImageSpec) (size : Option Int) :
    (((groupImagesByRegistry regs specs size).flatMap subGroup.members).map Prod.snd).Perm
      (List.range specs.length) ∧
    (∀ sg ∈ groupImagesByRegistry regs specs size,
      sg.members.length ≤ (effectiveMaxBatchSize size).toNat) ∧
    (∀ sg ∈ groupImagesByRegistry regs specs size, ∀ m ∈ sg.members,
      DetectRegistry regs m.1.Image = sg.registryKey) := by
  refine ⟨?_, ?_, ?_⟩
  · rw [groupImages_members_eq]
    refine ((primaryGroups_members_perm regs specs).map Prod.snd).trans ?_
    rw [List.map_map]
    rw [show (Prod.snd ∘ fun p : Nat × ImageSpec => (p.2, p.1)) = Prod.fst from rfl]
    rw [List.enum_map_fst]
  · intro sg hsg
    unfold groupImagesByRegistry at hsg
    rw [List.mem_flatMap] at hsg
    obtain ⟨g, hg, hmem⟩ := hsg
    split at hmem
    case isTrue hgt =>
      rw [List.mem_map] at hmem
      obtain ⟨c, hc, rfl⟩ := hmem
      have hlen := chunkList_mem_length _ _ _ hc
      have hb := effectiveMaxBatchSize_bounds size
      have h1 : 1 ≤ (effectiveMaxBatchSize size).toNat := by omega
      calc c.length ≤ ((effectiveMaxBatchSize size).toNat - 1) + 1 := hlen
        _ = (effectiveMaxBatchSize size).toNat := by omega
    case isFalse hle =>
      rcases List.mem_singleton.mp hmem with rfl
      show g.members.length ≤ (effectiveMaxBatchSize size).toNat
      omega
  · intro sg hsg m hm
    unfold groupImagesByRegistry at hsg
    rw [List.mem_flatMap] at hsg
    obtain ⟨g, hg, hmem⟩ := hsg
    split at hmem
    case isTrue hgt =>
      rw [List.mem_map] at hmem
      obtain ⟨c, hc, rfl⟩ := hmem
      have : m ∈ g.members := by
        rw [← chunkList_flatten ((effectiveMaxBatchSize size).toNat - 1) g.members]
        exact List.mem_flatten.mpr ⟨c, hc, hm⟩
      exact primaryGroups_key regs specs g hg m this
    case isFalse hle =>
      rcases List.mem_singleton.mp hmem with rfl
      exact primaryGroups_key regs specs g hg m hm

/-- Concrete instance of `c2_grouping_invariants` (two Docker Hub images
and one GHCR image, max size forced to 1). -/
theorem c2_witness :
    (((groupImagesByRegistry builtinRegistries
          [⟨"nginx", "latest"⟩, ⟨"redis", "alpine"⟩, ⟨"ghcr.io/a/b", "v1"⟩]
          (some 1)).flatMap subGroup.members).map Prod.snd).Perm (List.range 3) ∧
    (∀ sg ∈ groupImagesByRegistry builtinRegistries
        [⟨"nginx", "latest"⟩, ⟨"redis", "alpine"⟩, ⟨"ghcr.io/a/b", "v1"⟩] (some 1),
      sg.members.length ≤ (effectiveMaxBatchSize (some 1)).toNat) ∧
    (∀ sg ∈ groupImagesByRegistry builtinRegistries
        [⟨"nginx", "latest"⟩, ⟨"redis", "alpine"⟩, ⟨"ghcr.io/a/b", "v1"⟩] (some 1),
      ∀ m ∈ sg.members, DetectRegistry builtinRegistries m.1.Image = sg.registryKey) :=
  c2_grouping_invariants builtinRegistries
    [⟨"nginx", "latest"⟩, ⟨"redis", "alpine"⟩, ⟨"ghcr.io/a/b", "v1"⟩] (some 1)

/-! ## C3 — sequential vs concurrent dispatch -/

theorem runWrites_length (ws : List (Nat × ManifestResult)) :
    ∀ init : List ManifestResult, (runWrites init ws).length = init.length := by
  induction ws with
  | nil => intro init; rfl
  | cons w ws ih =>
    intro init
    rw [runWrites, List.foldl_cons]
    rw [show ws.foldl (fun acc w => acc.set w.1 w.2) (init.set w.1 w.2)
          = runWrites (init.set w.1 w.2) ws from rfl]
    rw [ih, List.length_set]

theorem runWrites_append (init : List ManifestResult) (a b : List (Nat × ManifestResult)) :
    runWrites init (a ++ b) = runWrites (runWrites init a) b := by
  unfold runWrites
  exact List.foldl_append _ _ _ _

theorem inner_foldl_eq_runWrites (net : NetOracle) (tok : groupToken) :
    ∀ (ms : List (ImageSpec × Nat)) (res : List ManifestResult),
      ms.foldl (fun res m => res.set m.2 (fetchSingleManifest net m.1 tok)) res
        = runWrites res (ms.map (fun m => (m.2, fetchSingleManifest net m.1 tok))) := by
  intro ms
  induction ms with
  | nil => intro res; rfl
  | cons m ms ih =>
    intro res
    rw [List.foldl_cons, List.map_cons, runWrites, List.foldl_cons]
    exact ih _

theorem seq_eq_runWrites (net : NetOracle) :
    ∀ (sgs : List subGroup) (res : List ManifestResult),
      fetchManifestsSequentially net sgs res = runWrites res (writesOf net sgs) := by
  intro sgs
  induction sgs with
  | nil => intro res; rfl
  | cons sg sgs ih =>
    intro res
    rw [fetchManifestsSequentially, List.foldl_cons]
    rw [show sgs.foldl (fun res sg => sg.members.foldl
          (fun res m => res.set m.2 (fetchSingleManifest net m.1 sg.token)) res)
            (sg.members.foldl
              (fun res m => res.set m.2 (fetchSingleManifest net m.1 sg.token)) res)
          = fetchManifestsSequentially net sgs
            (sg.members.foldl
              (fun res m => res.set m.2 (fetchSingleManifest net m.1 sg.token)) res) from rfl]
    rw [ih, inner_foldl_eq_runWrites]
    conv_rhs => rw [writesOf]
    rw [List.flatMap_cons, runWrites_append]
    rfl

theorem runWrites_perm (w1 w2 : List (Nat × ManifestResult)) (h : w1.Perm w2) :
    ∀ init : List ManifestResult, (w1.map Prod.fst).Nodup →
      runWrites init w1 = runWrites init w2 := by
  induction h with
  | nil => intro init _; rfl
  | cons x h ih =>
    intro init hnd
    rw [List.map_cons, List.nodup_cons] at hnd
    rw [runWrites, List.foldl_cons, runWrites, List.foldl_cons]
    exact ih (init.set x.1 x.2) hnd.2
  | swap x y l =>
    intro init hnd
    rw [List.map_cons, List.map_cons, List.nodup_cons] at hnd
    have hxy : y.1 ≠ x.1 := fun he => hnd.1 (he ▸ List.mem_cons_self _ _)
    rw [runWrites, List.foldl_cons, List.foldl_cons, runWrites, List.foldl_cons,
      List.foldl_cons]
    rw [List.set_comm _ _ _ hxy]
  | trans h1 h2 ih1 ih2 =>
    intro init hnd
    rw [ih1 init hnd]
    refine ih2 init ?_
    exact ((h1.map Prod.fst).nodup_iff).mp hnd

theorem runWrites_getElem?_not_mem (ws : List (Nat × ManifestResult)) (i : Nat) :
    ∀ init : List ManifestResult, i ∉ ws.map Prod.fst →
      (runWrites init ws)[i]? = init[i]? := by
  induction ws with
  | nil => intro init _; rfl
  | cons w ws ih =>
    intro init hni
    rw [List.map_cons] at hni
    have hne : w.1 ≠ i := fun he => hni (he ▸ List.mem_cons_self _ _)
    rw [runWrites, List.foldl_cons]
    rw [show ws.foldl (fun acc w => acc.set w.1 w.2) (init.set w.1 w.2)
          = runWrites (init.set w.1 w.2) ws from rfl]
    rw [ih _ (fun hm => hni (List.mem_cons_of_mem _ hm))]
    exact List.getElem?_set_ne hne

theorem runWrites_getElem?_mem (ws : List (Nat × ManifestResult)) (i : Nat) (v : ManifestResult) :
    ∀ init : List ManifestResult, i < init.length → (i, v) ∈ ws →
      (ws.map Prod.fst).Nodup → (runWrites init ws)[i]? = some v := by
  induction ws with
  | nil => intro init _ hm; cases hm
  | cons w ws ih =>
    intro init hi hm hnd
    rw [List.map_cons, List.nodup_cons] at hnd
    rw [runWrites, List.foldl_cons]
    rw [show ws.foldl (fun acc w => acc.set w.1 w.2) (init.set w.1 w.2)
          = runWrites (init.set w.1 w.2) ws from rfl]
    rcases List.mem_cons.mp hm with rfl | hm
    · rw [runWrites_getElem?_not_mem ws i _ hnd.1]
      exact List.getElem?_set_eq_of_lt _ hi
    · exact ih (init.set w.1 w.2) (by rw [List.length_set]; exact hi) hm hnd.2

theorem acquireBatchTokens_members (getTok : BatchTokenOracle) (sgs : List subGroup) :
    (acquireBatchTokens getTok sgs).map subGroup.members = sgs.map subGroup.members := by
  unfold acquireBatchTokens
  rw [List.map_map]
  refine List.map_congr_left ?_
  intro sg _
  simp only [Function.comp]
  split
  · rfl
  · split <;> rfl

theorem flatMap_members_of_map_eq (sgs1 sgs2 : List subGroup)
    (h : sgs1.map subGroup.members = sgs2.map subGroup.members) :
    sgs1.flatMap subGroup.members = sgs2.flatMap subGroup.members := by
  rw [List.flatMap_def, List.flatMap_def, h]

theorem writesOf_map_fst (net : NetOracle) (sgs : List subGroup) :
    (writesOf net sgs).map Prod.fst = (sgs.flatMap subGroup.members).map Prod.snd := by
  unfold writesOf
  rw [List.map_flatMap, List.map_flatMap]
  congr 1
  funext sg
  rw [List.map_map]
  rfl

theorem getManifests_run (regs : RegistryDir) (net : NetOracle) (getTok : BatchTokenOracle)
    (schedule : List (Nat × ManifestResult) → List (Nat × ManifestResult))
    (specs : List ImageSpec) (conc : Int) (hb : Bool) (size : Option Int)
    (hn : specs.length ≠ 0) :
    GetManifestsWithDigest regs net getTok schedule specs conc hb size
      = if conc ≤ 0 then
          runWrites (List.replicate specs.length emptyManifestResult)
            (writesOf net (if hb then
                acquireBatchTokens getTok (groupImagesByRegistry regs specs size)
              else groupImagesByRegistry regs specs size))
        else
          runWrites (List.replicate specs.length emptyManifestResult)
            (schedule (writesOf net (if hb then
                acquireBatchTokens getTok (groupImagesByRegistry regs specs size)
              else groupImagesByRegistry regs specs size))) := by
  simp only [GetManifestsWithDigest]
  rw [if_neg hn]
  by_cases hc : conc ≤ 0
  · rw [if_pos hc, if_pos hc, seq_eq_runWrites]
  · rw [if_neg hc, if_neg hc]
    rfl

/-- C3: with the same deterministic network oracles, concurrent dispatch
(any concurrency level, any commit order of the disjoint slot writes)
produces exactly the sequential result list; the result list has one entry
per input spec; and the entry at index `i` is the fetch result of the
input spec at index `i` (carrying that spec's image and tag), for some
group token — independent of grouping and execution order. -/
theorem c3_modes_agree_and_position_stable (regs : RegistryDir) (net : NetOracle) (getTok : BatchTokenOracle)
    (schedule : List (Nat × ManifestResult) → List (Nat × ManifestResult))
    (specs : List ImageSpec) (concurrency : Int) (batchAuth : Bool) (size : Option Int)
    (hsched : ∀ ws, (schedule ws).Perm ws) :
    GetManifestsWithDigest regs net getTok schedule specs concurrency batchAuth size
      = GetManifestsWithDigest regs net getTok id specs 0 batchAuth size ∧
    (GetManifestsWithDigest regs net getTok id specs 0 batchAuth size).length = specs.length ∧
    (∀ (i : Nat) (spec : ImageSpec), specs[i]? = some spec →
      ∃ tok : groupToken,
        (GetManifestsWithDigest regs net getTok id specs 0 batchAuth size)[i]?
          = some (fetchSingleManifest net spec tok) ∧
        (fetchSingleManifest net spec tok).Image = spec.Image ∧
        (fetchSingleManifest net spec tok).Tag = spec.Tag) := by
  by_cases hn : specs.length = 0
  · rw [List.length_eq_zero] at hn
    subst hn
    refine ⟨rfl, rfl, ?_⟩
    intro i spec hspec
    simp at hspec
  · have hmembers :
        ((if batchAuth then
            acquireBatchTokens getTok (groupImagesByRegistry regs specs size)
          else groupImagesByRegistry regs specs size).flatMap subGroup.members)
          = (groupImagesByRegistry regs specs size).flatMap subGroup.members := by
      split
      · exact flatMap_members_of_map_eq _ _ (acquireBatchTokens_members getTok _)
      · rfl
    have hFm :
        ((if batchAuth then
            acquireBatchTokens getTok (groupImagesByRegistry regs specs size)
          else groupImagesByRegistry regs specs size).flatMap subGroup.members).Perm
          (specs.enum.map (fun p => (p.2, p.1))) := by
      rw [hmembers, groupImages_members_eq]
      exact primaryGroups_members_perm regs specs
    have hidx :
        ((writesOf net (if batchAuth then
            acquireBatchTokens getTok (groupImagesByRegistry regs specs size)
          else groupImagesByRegistry regs specs size)).map Prod.fst).Perm
          (List.range specs.length) := by
      rw [writesOf_map_fst]
      refine (hFm.map Prod.snd).trans ?_
      rw [List.map_map]
      rw [show (Prod.snd ∘ fun p : Nat × ImageSpec => (p.2, p.1)) = Prod.fst from rfl]
      rw [List.enum_map_fst]
    have hnd :
        ((writesOf net (if batchAuth then
            acquireBatchTokens getTok (groupImagesByRegistry regs specs size)
          else groupImagesByRegistry regs specs size)).map Prod.fst).Nodup :=
      (hidx.nodup_iff).mpr (List.nodup_range specs.length)
    refine ⟨?_, ?_, ?_⟩
    · rw [getManifests_run regs net getTok schedule specs concurrency batchAuth size hn]
      rw [getManifests_run regs net getTok id specs 0 batchAuth size hn]
      rw [if_pos (le_refl (0 : Int))]
      by_cases hc : concurrency ≤ 0
      · rw [if_pos hc]
      · rw [if_neg hc]
        refine runWrites_perm _ _ (hsched _) _ ?_
        exact (((hsched _).map Prod.fst).nodup_iff).mpr hnd
    · rw [getManifests_run regs net getTok id specs 0 batchAuth size hn]
      rw [if_pos (le_refl (0 : Int))]
      rw [runWrites_length, List.length_replicate]
    · intro i spec hspec
      have hi : i < specs.length := by
        rcases List.getElem?_eq_some.mp hspec with ⟨h, -⟩
        exact h
      have henum : (i, spec) ∈ specs.enum := List.mk_mem_enum_iff_getElem?.mpr hspec
      have hmemmap : (spec, i) ∈ specs.enum.map (fun p => (p.2, p.1)) :=
        List.mem_map.mpr ⟨(i, spec), henum, rfl⟩
      have hmemfm := hFm.mem_iff.mpr hmemmap
      obtain ⟨sg, hsg, hmem⟩ := List.mem_flatMap.mp hmemfm
      have hw : (i, fetchSingleManifest net spec sg.token)
          ∈ writesOf net (if batchAuth then
              acquireBatchTokens getTok (groupImagesByRegistry regs specs size)
            else groupImagesByRegistry regs specs size) :=
        List.mem_flatMap.mpr ⟨sg, hsg, List.mem_map.mpr ⟨(spec, i), hmem, rfl⟩⟩
      refine ⟨sg.token, ?_, rfl, rfl⟩
      rw [getManifests_run regs net getTok id specs 0 batchAuth size hn]
      rw [if_pos (le_refl (0 : Int))]
      exact runWrites_getElem?_mem _ i _ _
        (by rw [List.length_replicate]; exact hi) hw hnd

/-- Concrete instance of `c3_modes_agree_and_position_stable`: two images,
concurrency 3 with the identity commit order, batch auth on. -/
theorem c3_witness :
    GetManifestsWithDigest builtinRegistries (fun _ _ => ⟨"m", "d", none⟩)
        (fun _ _ => .ok "tok") id [⟨"nginx", "latest"⟩, ⟨"ghcr.io/a/b", "v1"⟩] 3 true none
      = GetManifestsWithDigest builtinRegistries (fun _ _ => ⟨"m", "d", none⟩)
          (fun _ _ => .ok "tok") id [⟨"nginx", "latest"⟩, ⟨"ghcr.io/a/b", "v1"⟩] 0 true none ∧
    (GetManifestsWithDigest builtinRegistries (fun _ _ => ⟨"m", "d", none⟩)
        (fun _ _ => .ok "tok") id [⟨"nginx", "latest"⟩, ⟨"ghcr.io/a/b", "v1"⟩] 0 true none).length
      = ([⟨"nginx", "latest"⟩, ⟨"ghcr.io/a/b", "v1"⟩] : List ImageSpec).length ∧
    (∀ (i : Nat) (spec : ImageSpec),
      ([⟨"nginx", "latest"⟩, ⟨"ghcr.io/a/b", "v1"⟩] : List ImageSpec)[i]? = some spec →
      ∃ tok : groupToken,
        (GetManifestsWithDigest builtinRegistries (fun _ _ => ⟨"m", "d", none⟩)
            (fun _ _ => .ok "tok") id [⟨"nginx", "latest"⟩, ⟨"ghcr.io/a/b", "v1"⟩] 0 true none)[i]?
          = some (fetchSingleManifest (fun _ _ => ⟨"m", "d", none⟩) spec tok) ∧
        (fetchSingleManifest (fun _ _ => ⟨"m", "d", none⟩) spec tok).Image = spec.Image ∧
        (fetchSingleManifest (fun _ _ => ⟨"m", "d", none⟩) spec tok).Tag = spec.Tag) :=
  c3_modes_agree_and_position_stable builtinRegistries (fun _ _ => ⟨"m", "d", none⟩)
    (fun _ _ => .ok "tok") id [⟨"nginx", "latest"⟩, ⟨"ghcr.io/a/b", "v1"⟩] 3 true none
    (fun ws => List.Perm.refl ws)
